import Mathlib

/-!
# raysmith: tabulating the Raymond-Smith model

A shallow embedding of `xspec/tools/raysmith/raysmith.cxx`.

Conventions of the embedding.

* `Real` of the source (a `double`) is a type `R` with the operations `+`, `-`, `*`, `/`,
  the conversions from the integer types and the decimal literals; no law is assumed of
  them. The conversion to `float` and the functions of `<cmath>` (`log`, `exp`, `log10`,
  `pow`) are parameters. The theorems about exact values take `R` to be the real numbers
  with the real functions; `Binary64` gives `R` the rounded arithmetic of a `double`.
* `size_t` is 64 bits wide: a `size_t` is a natural number below `2 ^ 64`.
* A division by zero (a single temperature step) is outside the model.
* A text file is the sequence of its lines. A line of the energy file is either empty or
  is given by the four values that `instream >> eMin >> eMax >> nBins >> type` extracts
  from it; lines from which this extraction fails, or which hold more than four tokens,
  are outside the model.
* A C++ exception that nothing catches ends the run; such a run has no status (`none`).
* Messages (`HD_ERROR_THROW`, `cout`) are not part of the model.
-/

set_option linter.unusedVariables false

set_option linter.unusedSectionVars false

variable {R : Type} [Add R] [Sub R] [Mul R] [Div R] [Neg R] [Zero R] [NatCast R] [IntCast R]
  [OfScientific R]

/-! ## The energy file -/

/-- The width of `size_t`. -/
def SIZE_BITS : Nat := 64

/-- The conversion `(size_t)z` of an integer to `size_t`. -/
def to_size_t (z : Int) : Nat := (z % (2 : Int) ^ SIZE_BITS).toNat

/-- The value `instream >> nBins` stores in the `size_t` variable `nBins` when the token
is the decimal integer `z` with `|z| < 2 ^ 64`: the extraction for an unsigned type accepts
a sign and negates in the unsigned type, so `-5` is stored as `2 ^ 64 - 5`. -/
def extract_size_t (z : Int) : Nat := to_size_t z

/-- A non-empty line of the energy file: the values of its four tokens
`start_energy end_energy number_energy_bins lin|log`. The third token is a decimal
integer `nBins` with `|nBins| < 2 ^ 64`; a longer one makes the extraction fail and is
outside the model. -/
structure GridLine (R : Type) where
  eMin : R
  eMax : R
  nBins : Int
  type : String

/-- The text of an energy file: `lines` are the lines that end in a newline, in order
(`none` is an empty line), and `unterminated` is what follows the last newline (`none`
when nothing does, as in a file that ends in a newline and in the empty file). -/
structure EnergyFile (R : Type) where
  lines : List (Option (GridLine R))
  unterminated : Option (GridLine R)

/-- The `while` loop of `raysmith_read`, entered after a `getline`. The first argument
holds the newline-terminated lines not yet read by `getline`, the head being the line
`getline` has just returned in `instring`.

* `[]`: `getline` met the end of the file (reading what follows the last newline, if
  anything), which sets `eofbit`; `!fstream.eof()` fails and the loop ends.
* `none :: _`: `instring.size() > 0` fails and the loop ends.
* `some l :: rest`: the body runs on `l`, then `getline` is called again.

The result is the returned `status` and the vector `energies`. -/
def raysmith_read_loop (log exp : R → R) :
    List (Option (GridLine R)) → List R → Int × List R
  | [], energies => (0, energies)
  | none :: _, energies => (0, energies)
  | some l :: rest, energies =>
    let nBins := extract_size_t l.nBins
    if nBins ≤ 0 then
      (2, energies)
    else if l.type = "lin" then
      let step := (l.eMax - l.eMin) / (nBins : R)
      raysmith_read_loop log exp rest
        (energies ++ (List.range (nBins + 1)).map fun i : Nat => l.eMin + (i : R) * step)
    else if l.type = "log" then
      let step := (log l.eMax - log l.eMin) / (nBins : R)
      raysmith_read_loop log exp rest
        (energies ++ (List.range (nBins + 1)).map fun i : Nat => exp (log l.eMin + (i : R) * step))
    else
      (3, energies)

/-- The function `raysmith_read`: `fstream` is the result of opening `efilenm` (`none`
when it cannot be opened), `energies` the vector passed in by reference. Returns
`status` and `energies`. -/
def raysmith_read (log exp : R → R)
    (fstream : Option (EnergyFile R)) (energies : List R) : Int × List R :=
  match fstream with
  | none => (1, energies)
  | some file => raysmith_read_loop log exp file.lines energies

/-- The lines on which the body of the loop of `raysmith_read` runs when none of them is
rejected: the newline-terminated lines before the first empty one. -/
def processedLines {R : Type} : List (Option (GridLine R)) → List (GridLine R)
  | [] => []
  | none :: _ => []
  | some l :: rest => l :: processedLines rest

/-- The boundaries the body of the loop pushes for an accepted line. -/
def lineBoundaries (log exp : R → R) (l : GridLine R) : List R :=
  let nBins := extract_size_t l.nBins
  if l.type = "lin" then
    (List.range (nBins + 1)).map fun i : Nat => l.eMin + (i : R) * ((l.eMax - l.eMin) / (nBins : R))
  else
    (List.range (nBins + 1)).map fun i : Nat =>
      exp (log l.eMin + (i : R) * ((log l.eMax - log l.eMin) / (nBins : R)))

/-! ## The table -/

/-- Modelled from the spec: the class `tableParameter` of `table.h`, which is not among
the sources. A parameter has a name, an interpolation-method code, an initial value, a
delta, hard and soft minimum and maximum bounds and the sequence of tabulated values; the
fields are in the order of the constructor's arguments in `raysmith`. -/
structure tableParameter (R : Type) where
  Name : String
  InterpolationMethod : Int
  InitialValue : R
  Delta : R
  Minimum : R
  Bottom : R
  Top : R
  Maximum : R
  TabulatedValues : List R

/-- Modelled from the spec: the class `tableSpectrum` of `table.h`: a parameter-value
vector, a baseline flux vector and the additional flux vectors. -/
structure tableSpectrum (R : Type) where
  ParameterValues : List R
  Flux : List R
  addFlux : List (List R)

/-- Modelled from the spec: the class `table` of `table.h`: top-level metadata, the
energy grid, the ordered parameters and the ordered spectra. -/
structure table (R : Type) where
  Parameters : List (tableParameter R)
  Spectra : List (tableSpectrum R)
  ModelName : String
  ModelUnits : String
  NumIntParams : Int
  NumAddParams : Int
  isError : Bool
  isRedshift : Bool
  isAdditive : Bool
  Energies : List R
  EnergyUnits : String

instance {R : Type} [Zero R] : Inhabited (tableParameter R) :=
  ⟨⟨"", 0, 0, 0, 0, 0, 0, 0, []⟩⟩

/-- Modelled from the spec: a default-constructed `tableSpectrum`. -/
def tableSpectrum.new (R : Type) : tableSpectrum R := ⟨[], [], []⟩

/-- Modelled from the spec: a default-constructed `table`. -/
def table.new (R : Type) : table R := ⟨[], [], "", "", 0, 0, false, false, false, [], ""⟩

/-- Modelled from the spec: `tableSpectrum::pushaddFlux` appends an additional flux. -/
def tableSpectrum.pushaddFlux {R : Type} (s : tableSpectrum R) (f : List R) : tableSpectrum R :=
  { s with addFlux := s.addFlux ++ [f] }

/-- Modelled from the spec: `table::pushParameter` appends to the parameter list. -/
def table.pushParameter {R : Type} (t : table R) (p : tableParameter R) : table R :=
  { t with Parameters := t.Parameters ++ [p] }

/-- Modelled from the spec: `table::pushSpectrum` appends to the spectra. -/
def table.pushSpectrum {R : Type} (t : table R) (s : tableSpectrum R) : table R :=
  { t with Spectra := t.Spectra ++ [s] }

/-! ## The environment of a run -/

/-- What the file system holds at a path: nothing, a file that exists but cannot be
opened for reading, or a file that can be opened for reading, with its text. -/
inductive FileState (R : Type) where
  | absent
  | unreadable
  | readable (text : EnergyFile R)

/-- What a run of `raysmith` gets from outside the source file: the parameter interface
(each `PILGet...` returns its status and the value read), the file system, the methods
`check` and `write` of `table`, the Fortran routine `rayspec_m` (its result is the value
it leaves in `work1[0]`), the conversion `(float)` and the functions of `<cmath>`. -/
structure Env (R : Type) where
  PILGetFname : String → Int × String
  PILGetReal : String → Int × R
  PILGetInt : String → Int × Int
  PILGetBool : String → Int × Int
  /-- The state of the file system at each path when the run starts. -/
  files : String → FileState R
  /-- The status of `remove` on a path. -/
  remove : String → Int
  check : table R → String
  /-- The status of `table::write`. -/
  write : table R → String → Int
  rayspec_m : (t dene : R) → (frac : List R) → (nsteps : Int) → (emin estep : R) →
    (idens icx : Int) → R
  toFloat : R → R
  log : R → R
  exp : R → R
  log10 : R → R
  pow : R → R → R

/-- Opening a path for reading with an `ifstream`: `none` when the stream is not good,
which is the case when the file is absent and when it cannot be opened for reading. -/
def Env.ifstream {R : Type} (env : Env R) (path : String) : Option (EnergyFile R) :=
  match env.files path with
  | .readable text => some text
  | .unreadable => none
  | .absent => none

/-- The output arguments of `raysmith_getpar`. -/
structure Pars (R : Type) where
  filename : String
  tstart : R
  tend : R
  ntsteps : Int
  efilenm : String
  clobber : Bool

/-- The function `raysmith_getpar`: the first non-zero status of a `PILGet...` call is
returned at once (`Except.error`); otherwise all six parameters are set and the status
is 0 (`Except.ok`). -/
def raysmith_getpar {R : Type} (env : Env R) : Except Int (Pars R) :=
  if (env.PILGetFname "filename").1 ≠ 0 then .error (env.PILGetFname "filename").1
  else if (env.PILGetReal "tstart").1 ≠ 0 then .error (env.PILGetReal "tstart").1
  else if (env.PILGetReal "tend").1 ≠ 0 then .error (env.PILGetReal "tend").1
  else if (env.PILGetInt "ntsteps").1 ≠ 0 then .error (env.PILGetInt "ntsteps").1
  else if (env.PILGetFname "efilenm").1 ≠ 0 then .error (env.PILGetFname "efilenm").1
  else if (env.PILGetBool "clobber").1 ≠ 0 then .error (env.PILGetBool "clobber").1
  else .ok
    { filename := (env.PILGetFname "filename").2
      tstart := (env.PILGetReal "tstart").2
      tend := (env.PILGetReal "tend").2
      ntsteps := (env.PILGetInt "ntsteps").2
      efilenm := (env.PILGetFname "efilenm").2
      clobber := if (env.PILGetBool "clobber").2 ≠ 0 then true else false }

/-! ## The emission evaluator -/

/-- The function `rayspec_wrap`; the result is the vector `flux`. The variables `t`,
`dene`, `enorm` and the arrays `emin`, `estep`, `frac` are `float`: what is stored in
them is converted with `toFloat`. With no energies, `energies.size()-1` is the largest
`size_t` and `flux.resize` throws (`none`). -/
def rayspec_wrap (env : Env R) (energies params : List R) :
    Option (List R) :=
  let nsteps : Int := 1
  let dene : R := env.toFloat 0.0
  let idens : Int := 1
  let icx : Int := 1
  let t := env.toFloat (env.log10 (params.getD 0 0 * 11.6e6))
  let frac := (List.range 12).map fun i : Nat => env.toFloat (params.getD (i + 1) 0)
  if energies.length = 0 then none
  else
    some ((List.range (energies.length - 1)).map fun i : Nat =>
      let emin := env.toFloat (env.toFloat (energies.getD i 0) * 1000.0)
      let estep :=
        env.toFloat (env.toFloat (energies.getD (i + 1) 0 - energies.getD i 0) * 1000.0)
      let enorm :=
        env.toFloat (env.toFloat 2.0 / (energies.getD (i + 1) 0 + energies.getD i 0) / 1.60207)
      let work1 := env.rayspec_m t dene frac nsteps emin estep idens icx
      work1 * enorm)

/-! ## The driver -/

/-- The temperature grid `parVals` of `raysmith`: `ntsteps` is an `int`, and the loop
runs for `i < (size_t)ntsteps`. -/
def raysmith_parVals (log10 : R → R) (pow : R → R → R)
    (tstart tend : R) (ntsteps : Int) : List R :=
  let tstep := (log10 tend - log10 tstart) / ((ntsteps - 1 : Int) : R)
  (List.range (to_size_t ntsteps)).map fun i : Nat => pow 10.0 (log10 tstart + (i : R) * tstep)

/-- The names of the element parameters, the array `elements` of `raysmith`. -/
def elements : List String :=
  ["He", "C ", "N ", "O ", "Ne", "Mg", "Si", "S ", "Ar", "Ca", "Fe", "Ni"]

/-- The number of elements, `Nelements` of `raysmith`. -/
def Nelements : Nat := 12

/-- The loop over the elements in `raysmith`, for the element indices still to do: the
state is the vector `params` and the spectrum `tabSpec`; `flux` is the baseline. -/
def raysmith_elements (env : Env R) (energies flux : List R) :
    List Nat → List R → tableSpectrum R → Option (List R × tableSpectrum R)
  | [], params, tabSpec => some (params, tabSpec)
  | ielt :: rest, params, tabSpec =>
    let params := params.set (ielt + 1) 1.0
    match rayspec_wrap env energies params with
    | none => none
    | some addFlux =>
      let addFlux := (List.range addFlux.length).map fun i : Nat => addFlux.getD i 0 - flux.getD i 0
      let tabSpec := tabSpec.pushaddFlux addFlux
      let params := params.set (ielt + 1) 1.0e-7
      raysmith_elements env energies flux rest params tabSpec

/-- The loop over the spectra in `raysmith`, for the indices `ispec` still to do: the
state is the vector `params` and the table. -/
def raysmith_spectra (env : Env R) (energies : List R) :
    List Nat → List R → table R → Option (List R × table R)
  | [], params, outputTable => some (params, outputTable)
  | ispec :: rest, params, outputTable =>
    let tabSpec := tableSpectrum.new R
    let params := params.set 0 ((outputTable.Parameters.getD 0 default).TabulatedValues.getD ispec 0)
    let tabSpec := { tabSpec with ParameterValues := [params.getD 0 0] }
    match rayspec_wrap env energies params with
    | none => none
    | some flux =>
      let tabSpec := { tabSpec with Flux := flux }
      match raysmith_elements env energies flux (List.range Nelements) params tabSpec with
      | none => none
      | some (params, tabSpec) =>
        raysmith_spectra env energies rest params (outputTable.pushSpectrum tabSpec)

/-- The part of `raysmith` that sets up the table object, from the declaration of
`outputTable` to the end of the loop over the spectra. A negative `ntsteps` makes
`vector<Real> parVals(ntsteps)` throw (`none`). -/
def raysmith_outputTable (env : Env R) (p : Pars R) (energies : List R) :
    Option (table R) :=
  let outputTable := table.new R
  if p.ntsteps < 0 then none
  else
    let parVals := raysmith_parVals env.log10 env.pow p.tstart p.tend p.ntsteps
    let tabPar : tableParameter R := ⟨"kT", 1, 1.0, 0.01, p.tstart, p.tstart, p.tend, p.tend, parVals⟩
    let outputTable := outputTable.pushParameter tabPar
    let outputTable := (List.range Nelements).foldl
      (fun (t : table R) i =>
        t.pushParameter ⟨elements.getD i "", -1, 1.0, -0.01, 0.0, 0.0, 1000.0, 1000.0, []⟩)
      outputTable
    let outputTable := { outputTable with ModelName := "vraymond_t" }
    let outputTable := { outputTable with ModelUnits := "ph/cm^2/s" }
    let outputTable := { outputTable with NumAddParams := Nelements }
    let outputTable := { outputTable with NumIntParams := 1 }
    let outputTable := { outputTable with isError := false }
    let outputTable := { outputTable with isRedshift := true }
    let outputTable := { outputTable with isAdditive := true }
    let evec := (List.range energies.length).map fun i : Nat => energies.getD i 0
    let outputTable := { outputTable with Energies := evec }
    let outputTable := { outputTable with EnergyUnits := "keV" }
    let params : List R :=
      List.replicate (outputTable.NumIntParams + outputTable.NumAddParams).toNat 0
    let params := (List.range Nelements).foldl (fun ps i => ps.set (i + 1) 1.0e-7) params
    match raysmith_spectra env energies (List.range (to_size_t p.ntsteps)) params
        outputTable with
    | none => none
    | some (_, outputTable) => some outputTable

/-- A call that changes the file system. -/
inductive Effect (R : Type) where
  | remove (filename : String)
  | write (outputTable : table R) (filename : String)

/-- What a run of the tool does: the status it returns (`none` when an exception ends
it) and the calls of `remove` and `table::write` it makes, in order. -/
structure Run (R : Type) where
  status : Option Int
  effects : List (Effect R)

/-- The function `raysmith`. -/
def raysmith (env : Env R) : Run R :=
  match raysmith_getpar env with
  | .error status => ⟨some status, []⟩
  | .ok p =>
    match env.ifstream p.efilenm with
    | none => ⟨some (-1), []⟩
    | some _ =>
      let read := raysmith_read env.log env.exp (env.ifstream p.efilenm) []
      let status := read.1
      let energies := read.2
      if status ≠ 0 then ⟨some status, []⟩
      else
        match raysmith_outputTable env p energies with
        | none => ⟨none, []⟩
        | some outputTable =>
          let msg := env.check outputTable
          if msg.length > 0 then ⟨some (-1), []⟩
          else if (env.ifstream p.filename).isSome then
            if p.clobber then
              let status := env.remove p.filename
              if status ≠ 0 then ⟨some status, [.remove p.filename]⟩
              else
                ⟨some (env.write outputTable p.filename),
                  [.remove p.filename, .write outputTable p.filename]⟩
            else ⟨some (-2), []⟩
          else ⟨some (env.write outputTable p.filename), [.write outputTable p.filename]⟩

/-! ## Closed forms used in the statements -/

/-- The vector `params` of `raysmith` for the temperature `T` with every element at the
floor value. -/
def floorParams (T : R) : List R := T :: List.replicate 12 1.0e-7

/-- The vector `params` for the temperature `T` with the element of index `k` switched on
and the other eleven at the floor value. -/
def elementParams (T : R) (k : Nat) : List R :=
  T :: (List.replicate 12 (1.0e-7 : R)).set k 1.0

/-- The flux `rayspec_wrap` computes (empty when it throws). -/
def wrapFlux (env : Env R) (energies params : List R) : List R :=
  (rayspec_wrap env energies params).getD []

/-- The loop `addFlux[i] -= flux[i]` of `raysmith`. -/
def subtractFlux (addFlux flux : List R) : List R :=
  (List.range addFlux.length).map fun i : Nat => addFlux.getD i 0 - flux.getD i 0

/-- The spectrum `raysmith` builds for the temperature `T`. -/
def spectrumAt (env : Env R) (energies : List R) (T : R) :
    tableSpectrum R :=
  { ParameterValues := [T]
    Flux := wrapFlux env energies (floorParams T)
    addFlux := (List.range Nelements).map fun k : Nat =>
      subtractFlux (wrapFlux env energies (elementParams T k))
        (wrapFlux env energies (floorParams T)) }

/-- A deterministic stand-in for the outside of a run, over the rationals: every
parameter is read with status 0 (`tstart` 1, `tend` 100, `ntsteps` 3, the file names are
the parameter names, `clobber` as given), the energy file is `efile` (`none` when there is
no such file), the output path is in the state `output`, `remove` and `write` succeed,
`check` returns `msg`. -/
def testEnv (efile : Option (EnergyFile ℚ)) (output : FileState ℚ) (clobber : Int)
    (msg : String) : Env ℚ :=
  { PILGetFname := fun name => (0, name)
    PILGetReal := fun name => (0, if name = "tstart" then 1 else 100)
    PILGetInt := fun _ => (0, 3)
    PILGetBool := fun _ => (0, clobber)
    files := fun path =>
      if path = "efilenm" then
        match efile with
        | some text => .readable text
        | none => .absent
      else output
    remove := fun _ => 0
    check := fun _ => msg
    write := fun _ _ => 0
    rayspec_m := fun t dene frac nsteps emin estep idens icx => t + frac.sum + emin + estep
    toFloat := fun x => x
    log := fun x => x
    exp := fun x => x
    log10 := fun x => x
    pow := fun x y => x + y }

/-- The parameters `raysmith_getpar` reads from `testEnv`. -/
def testPars (clobber : Bool) : Pars ℚ := ⟨"filename", 1, 100, 3, "efilenm", clobber⟩

/-! ## The arithmetic of a `double` -/

/-- The number of binary digits of `n`, found in at most `fuel` halvings. -/
def bitLength : Nat → Nat → Nat
  | 0, _ => 0
  | fuel + 1, n => if n = 0 then 0 else bitLength fuel (n / 2) + 1

/-- The rational `q` rounded to `prec` significant binary digits, to the nearest such
number and to the one with an even last digit when two are equally near: the rounding of
IEEE 754 arithmetic, for results in the range of the normal numbers (no overflow, no
subnormal number). -/
def roundBits (prec : Nat) (q : ℚ) : ℚ :=
  if q.num = 0 then 0
  else
    let n := q.num.natAbs
    let d := q.den
    let a := bitLength n n - 1
    let b := bitLength d d - 1
    let L : Int := if (if b ≤ a then d * 2 ^ (a - b) ≤ n else d ≤ n * 2 ^ (b - a))
      then (a : Int) - b else (a : Int) - b - 1
    let e : Int := L - ((prec : Int) - 1)
    let num := if e < 0 then n * 2 ^ (-e).toNat else n
    let den := if e < 0 then d else d * 2 ^ e.toNat
    let m := num / den
    let r := num % den
    let m := if den < 2 * r ∨ (2 * r = den ∧ m % 2 = 1) then m + 1 else m
    let v : ℚ := if e < 0 then mkRat m (2 ^ (-e).toNat) else ((m * 2 ^ e.toNat : Nat) : ℚ)
    if q.num < 0 then -v else v

/-- A finite `double`, given by its value. Every operation rounds the exact result to 53
significant binary digits; infinities, NaN and a division by zero are not modelled. -/
structure Binary64 where
  val : ℚ
deriving DecidableEq

instance : Add Binary64 := ⟨fun a b => ⟨roundBits 53 (a.val + b.val)⟩⟩

instance : Sub Binary64 := ⟨fun a b => ⟨roundBits 53 (a.val - b.val)⟩⟩

instance : Mul Binary64 := ⟨fun a b => ⟨roundBits 53 (a.val * b.val)⟩⟩

instance : Div Binary64 := ⟨fun a b => ⟨roundBits 53 (a.val / b.val)⟩⟩

instance : Neg Binary64 := ⟨fun a => ⟨-a.val⟩⟩

instance : Zero Binary64 := ⟨⟨0⟩⟩

instance : NatCast Binary64 := ⟨fun n => ⟨roundBits 53 n⟩⟩

instance : IntCast Binary64 := ⟨fun z => ⟨roundBits 53 z⟩⟩

instance : OfScientific Binary64 :=
  ⟨fun m s e => ⟨roundBits 53 (OfScientific.ofScientific m s e)⟩⟩

instance : LT Binary64 := ⟨fun a b => a.val < b.val⟩

instance (a b : Binary64) : Decidable (a < b) := inferInstanceAs (Decidable (a.val < b.val))

/-- The conversion `(float)` of a `double`: rounding to 24 significant binary digits. -/
def Binary64.toFloat (a : Binary64) : Binary64 := ⟨roundBits 24 a.val⟩

/-- A deterministic stand-in for the outside of a run, in the arithmetic of a `double`.
The parameters are `tstart` 1, `tend` 100, `ntsteps` 3, `clobber` 0, the file names are
the parameter names; the energy file is the line `1.0 2.0 1 lin` and a newline; there is
no output file. The stand-in for `rayspec_m` returns the intensity 1.0, except when the
first fraction (helium) is 1.0, and then it returns the second fraction (carbon). The
functions `log10` and `pow` have their exact values `log10 1 = 0`, `log10 100 = 2`,
`pow 10 0 = 1`, `pow 10 1 = 10`, `pow 10 2 = 100` on the arguments the temperature grid
of this run needs; elsewhere `log10` returns 0, which reaches only the argument `t` of
`rayspec_m`. The functions `log` and `exp` are not called, the file having no `log`
line. -/
def floatEnv : Env Binary64 :=
  { PILGetFname := fun name => (0, name)
    PILGetReal := fun name => (0, if name = "tstart" then 1.0 else 100.0)
    PILGetInt := fun _ => (0, 3)
    PILGetBool := fun _ => (0, 0)
    files := fun path =>
      if path = "efilenm" then .readable ⟨[some ⟨1.0, 2.0, 1, "lin"⟩], none⟩ else .absent
    remove := fun _ => 0
    check := fun _ => ""
    write := fun _ _ => 0
    rayspec_m := fun t dene frac nsteps emin estep idens icx =>
      if frac.getD 0 0 = 1.0 then frac.getD 1 0 else 1.0
    toFloat := Binary64.toFloat
    log := fun x => x
    exp := fun x => x
    log10 := fun x => if x = 100.0 then 2.0 else 0.0
    pow := fun x y => if y = 0.0 then 1.0 else if y = 1.0 then x else x * x }

theorem to_size_t_of_nonneg (z : Int) (h0 : 0 ≤ z) (hfit : z < 2 ^ 64) :
    to_size_t z = z.toNat := by
  unfold to_size_t SIZE_BITS
  rw [Int.emod_eq_of_lt h0 hfit]

theorem to_size_t_cast (z : Int) (h0 : 0 ≤ z) (hfit : z < 2 ^ 64) :
    ((to_size_t z : Nat) : ℝ) = (z : ℝ) := by
  rw [to_size_t_of_nonneg z h0 hfit]
  rw [← Int.cast_natCast, Int.toNat_of_nonneg h0]

/-! ## The boundaries of one line -/

theorem loop_lin (log exp : R → R) (l : GridLine R)
    (hpos : 0 < extract_size_t l.nBins) (htype : l.type = "lin")
    (rest : List (Option (GridLine R))) (energies : List R) :
    raysmith_read_loop log exp (some l :: rest) energies
      = raysmith_read_loop log exp rest (energies ++ lineBoundaries log exp l) := by
  have h : ¬ extract_size_t l.nBins ≤ 0 := by omega
  simp [raysmith_read_loop, lineBoundaries, h, htype]

theorem loop_log (log exp : R → R) (l : GridLine R)
    (hpos : 0 < extract_size_t l.nBins) (htype : l.type = "log")
    (rest : List (Option (GridLine R))) (energies : List R) :
    raysmith_read_loop log exp (some l :: rest) energies
      = raysmith_read_loop log exp rest (energies ++ lineBoundaries log exp l) := by
  have h : ¬ extract_size_t l.nBins ≤ 0 := by omega
  have h2 : ¬ l.type = "lin" := by rw [htype]; decide
  simp [raysmith_read_loop, lineBoundaries, h, htype]

theorem affine_getElem? {R : Type} (f : Nat → R) (n i : Nat) (hi : i ≤ n) :
    ((List.range (n + 1)).map f)[i]? = some (f i) := by
  have : i < n + 1 := by omega
  simp [List.getElem?_map, List.getElem?_range this]

theorem affine_head? {R : Type} (f : Nat → R) (n : Nat) :
    ((List.range (n + 1)).map f).head? = some (f 0) := by
  rw [List.head?_eq_getElem?, affine_getElem? f n 0 (Nat.zero_le n)]

theorem affine_getLast? {R : Type} (f : Nat → R) (n : Nat) :
    ((List.range (n + 1)).map f).getLast? = some (f n) := by
  simp [List.range_succ]

theorem affine_pairwise (f : Nat → ℝ) (n : Nat) (hf : ∀ i j, i < j → f i < f j) :
    ((List.range (n + 1)).map f).Pairwise (· < ·) :=
  List.Pairwise.map f hf (List.pairwise_lt_range (n + 1))

theorem lineBoundaries_lin (eMin eMax : ℝ) (nBins : ℤ) (hpos : 0 < nBins)
    (hfit : nBins < 2 ^ 64) :
    lineBoundaries Real.log Real.exp ⟨eMin, eMax, nBins, "lin"⟩
      = (List.range (nBins.toNat + 1)).map
          fun i : ℕ => eMin + (i : ℝ) * ((eMax - eMin) / (nBins : ℝ)) := by
  have hn : extract_size_t nBins = nBins.toNat := to_size_t_of_nonneg nBins hpos.le hfit
  have hc : ((nBins.toNat : ℕ) : ℝ) = (nBins : ℝ) := by
    rw [← hn]; exact to_size_t_cast nBins hpos.le hfit
  simp [lineBoundaries, hn, hc]

theorem lineBoundaries_log (eMin eMax : ℝ) (nBins : ℤ) (hpos : 0 < nBins)
    (hfit : nBins < 2 ^ 64) :
    lineBoundaries Real.log Real.exp ⟨eMin, eMax, nBins, "log"⟩
      = (List.range (nBins.toNat + 1)).map
          fun i : ℕ => Real.exp (Real.log eMin
              + (i : ℝ) * ((Real.log eMax - Real.log eMin) / (nBins : ℝ))) := by
  have hn : extract_size_t nBins = nBins.toNat := to_size_t_of_nonneg nBins hpos.le hfit
  have hc : ((nBins.toNat : ℕ) : ℝ) = (nBins : ℝ) := by
    rw [← hn]; exact to_size_t_cast nBins hpos.le hfit
  have h2 : ¬ ("log" = "lin") := by decide
  simp [lineBoundaries, hn, hc, h2]

/-- C1: a line `eMin eMax nBins lin` with `0 < nBins` (a `size_t`, so below `2 ^ 64`) and
`eMin < eMax` makes `raysmith_read` append exactly `nBins + 1` boundaries
`eMin + i * (eMax - eMin) / nBins`, `i = 0 .. nBins`; they are strictly increasing, the
first is `eMin` and the last is `eMax`. -/
theorem raysmith_read_lin_line (eMin eMax : ℝ) (nBins : ℤ) (hpos : 0 < nBins)
    (hfit : nBins < 2 ^ 64) (hlt : eMin < eMax)
    (rest : List (Option (GridLine ℝ))) (energies : List ℝ) :
    ∃ bs : List ℝ,
      raysmith_read_loop Real.log Real.exp (some ⟨eMin, eMax, nBins, "lin"⟩ :: rest) energies
        = raysmith_read_loop Real.log Real.exp rest (energies ++ bs) ∧
      raysmith_read Real.log Real.exp (some ⟨[some ⟨eMin, eMax, nBins, "lin"⟩], none⟩) energies
        = (0, energies ++ bs) ∧
      (bs.length : ℤ) = nBins + 1 ∧
      (∀ i : ℕ, (i : ℤ) ≤ nBins → bs[i]? = some (eMin + (i : ℝ) * (eMax - eMin) / (nBins : ℝ))) ∧
      bs.Pairwise (· < ·) ∧
      bs.head? = some eMin ∧
      bs.getLast? = some eMax := by
  have hn : extract_size_t nBins = nBins.toNat := to_size_t_of_nonneg nBins hpos.le hfit
  have hnpos : 0 < extract_size_t nBins := by rw [hn]; omega
  have hc : ((nBins.toNat : ℕ) : ℝ) = (nBins : ℝ) := by
    rw [← hn]; exact to_size_t_cast nBins hpos.le hfit
  have hR : (0 : ℝ) < (nBins : ℝ) := by exact_mod_cast hpos
  have hstep : 0 < (eMax - eMin) / (nBins : ℝ) := div_pos (sub_pos.mpr hlt) hR
  have hloop := loop_lin Real.log Real.exp ⟨eMin, eMax, nBins, "lin"⟩ hnpos rfl
  refine ⟨lineBoundaries Real.log Real.exp ⟨eMin, eMax, nBins, "lin"⟩, hloop rest energies,
    ?_, ?_, ?_, ?_, ?_, ?_⟩
  · simp only [raysmith_read]
    rw [hloop [] energies, raysmith_read_loop]
  · rw [lineBoundaries_lin eMin eMax nBins hpos hfit]
    simp only [List.length_map, List.length_range]
    push_cast
    rw [Int.toNat_of_nonneg hpos.le]
  · intro i hi
    rw [lineBoundaries_lin eMin eMax nBins hpos hfit, affine_getElem? _ _ i (by omega)]
    congr 1
    ring
  · rw [lineBoundaries_lin eMin eMax nBins hpos hfit]
    apply affine_pairwise
    intro i j hij
    have : (i : ℝ) < (j : ℝ) := by exact_mod_cast hij
    have := mul_lt_mul_of_pos_right this hstep
    linarith
  · rw [lineBoundaries_lin eMin eMax nBins hpos hfit, affine_head?]
    simp
  · rw [lineBoundaries_lin eMin eMax nBins hpos hfit, affine_getLast?, hc]
    congr 1
    field_simp

/-- A line `1 3 2 lin` gives the boundaries of C1. -/
theorem raysmith_read_lin_line_witness :
    ∃ bs : List ℝ,
      raysmith_read_loop Real.log Real.exp (some ⟨1, 3, 2, "lin"⟩ :: []) []
        = raysmith_read_loop Real.log Real.exp [] ([] ++ bs) ∧
      raysmith_read Real.log Real.exp (some ⟨[some ⟨1, 3, 2, "lin"⟩], none⟩) []
        = (0, [] ++ bs) ∧
      (bs.length : ℤ) = 2 + 1 ∧
      (∀ i : ℕ, (i : ℤ) ≤ 2 → bs[i]? = some (1 + (i : ℝ) * (3 - 1) / ((2 : ℤ) : ℝ))) ∧
      bs.Pairwise (· < ·) ∧
      bs.head? = some 1 ∧
      bs.getLast? = some 3 :=
  raysmith_read_lin_line 1 3 2 (by norm_num) (by norm_num) (by norm_num) [] []

/-- C2: a line `eMin eMax nBins log` with `0 < nBins` (a `size_t`, so below `2 ^ 64`) and
`0 < eMin < eMax` makes `raysmith_read` append exactly `nBins + 1` boundaries
`exp (log eMin + i * (log eMax - log eMin) / nBins)`; the ratio of any two consecutive
boundaries is the same number, the first boundary is `eMin` and the last is `eMax`. -/
theorem raysmith_read_log_line (eMin eMax : ℝ) (nBins : ℤ) (hpos : 0 < nBins)
    (hfit : nBins < 2 ^ 64) (hmin : 0 < eMin) (hlt : eMin < eMax)
    (rest : List (Option (GridLine ℝ))) (energies : List ℝ) :
    ∃ bs : List ℝ,
      raysmith_read_loop Real.log Real.exp (some ⟨eMin, eMax, nBins, "log"⟩ :: rest) energies
        = raysmith_read_loop Real.log Real.exp rest (energies ++ bs) ∧
      raysmith_read Real.log Real.exp (some ⟨[some ⟨eMin, eMax, nBins, "log"⟩], none⟩) energies
        = (0, energies ++ bs) ∧
      (bs.length : ℤ) = nBins + 1 ∧
      (∀ i : ℕ, (i : ℤ) ≤ nBins → bs[i]? = some
        (Real.exp (Real.log eMin + (i : ℝ) * (Real.log eMax - Real.log eMin) / (nBins : ℝ)))) ∧
      (∃ q : ℝ, ∀ i : ℕ, (i : ℤ) < nBins → ∃ a b : ℝ,
        bs[i]? = some a ∧ bs[i + 1]? = some b ∧ a ≠ 0 ∧ b / a = q) ∧
      bs.head? = some eMin ∧
      bs.getLast? = some eMax := by
  have hn : extract_size_t nBins = nBins.toNat := to_size_t_of_nonneg nBins hpos.le hfit
  have hnpos : 0 < extract_size_t nBins := by rw [hn]; omega
  have hc : ((nBins.toNat : ℕ) : ℝ) = (nBins : ℝ) := by
    rw [← hn]; exact to_size_t_cast nBins hpos.le hfit
  have hR : (nBins : ℝ) ≠ 0 := by
    have : (0 : ℝ) < (nBins : ℝ) := by exact_mod_cast hpos
    exact this.ne'
  have hloop := loop_log Real.log Real.exp ⟨eMin, eMax, nBins, "log"⟩ hnpos rfl
  refine ⟨lineBoundaries Real.log Real.exp ⟨eMin, eMax, nBins, "log"⟩, hloop rest energies,
    ?_, ?_, ?_, ?_, ?_, ?_⟩
  · simp only [raysmith_read]
    rw [hloop [] energies, raysmith_read_loop]
  · rw [lineBoundaries_log eMin eMax nBins hpos hfit]
    simp only [List.length_map, List.length_range]
    push_cast
    rw [Int.toNat_of_nonneg hpos.le]
  · intro i hi
    rw [lineBoundaries_log eMin eMax nBins hpos hfit, affine_getElem? _ _ i (by omega)]
    congr 2
    ring
  · refine ⟨Real.exp ((Real.log eMax - Real.log eMin) / (nBins : ℝ)), ?_⟩
    intro i hi
    rw [lineBoundaries_log eMin eMax nBins hpos hfit]
    refine ⟨_, _, affine_getElem? _ _ i (by omega), affine_getElem? _ _ (i + 1) (by omega),
      (Real.exp_pos _).ne', ?_⟩
    rw [← Real.exp_sub]
    congr 1
    push_cast
    ring
  · rw [lineBoundaries_log eMin eMax nBins hpos hfit, affine_head?]
    simp [Real.exp_log hmin]
  · rw [lineBoundaries_log eMin eMax nBins hpos hfit, affine_getLast?, hc]
    congr 1
    have : Real.log eMin + (nBins : ℝ) * ((Real.log eMax - Real.log eMin) / (nBins : ℝ))
        = Real.log eMax := by field_simp
    rw [this, Real.exp_log (hmin.trans hlt)]

/-- The line `1 10 9 log` gives the boundaries of C2. -/
theorem raysmith_read_log_line_witness :
    ∃ bs : List ℝ,
      raysmith_read_loop Real.log Real.exp (some ⟨1, 10, 9, "log"⟩ :: []) []
        = raysmith_read_loop Real.log Real.exp [] ([] ++ bs) ∧
      raysmith_read Real.log Real.exp (some ⟨[some ⟨1, 10, 9, "log"⟩], none⟩) []
        = (0, [] ++ bs) ∧
      (bs.length : ℤ) = 9 + 1 ∧
      (∀ i : ℕ, (i : ℤ) ≤ 9 → bs[i]? = some
        (Real.exp (Real.log 1 + (i : ℝ) * (Real.log 10 - Real.log 1) / ((9 : ℤ) : ℝ)))) ∧
      (∃ q : ℝ, ∀ i : ℕ, (i : ℤ) < 9 → ∃ a b : ℝ,
        bs[i]? = some a ∧ bs[i + 1]? = some b ∧ a ≠ 0 ∧ b / a = q) ∧
      bs.head? = some 1 ∧
      bs.getLast? = some 10 :=
  raysmith_read_log_line 1 10 9 (by norm_num) (by norm_num) (by norm_num) (by norm_num) [] []

/-! ## The whole energy file -/

/-- When no processed line is rejected, the loop returns status 0 and appends the
boundaries of the processed lines in order. -/
theorem loop_concat (log exp : R → R)
    (lines : List (Option (GridLine R))) (energies : List R)
    (hvalid : ∀ l ∈ processedLines lines,
      0 < extract_size_t l.nBins ∧ (l.type = "lin" ∨ l.type = "log")) :
    raysmith_read_loop log exp lines energies
      = (0, energies ++ ((processedLines lines).map (lineBoundaries log exp)).flatten) := by
  induction lines generalizing energies with
  | nil => simp [raysmith_read_loop, processedLines]
  | cons o rest ih =>
    cases o with
    | none => simp [raysmith_read_loop, processedLines]
    | some l =>
      have hl := hvalid l (by simp [processedLines])
      have hrest : ∀ m ∈ processedLines rest,
          0 < extract_size_t m.nBins ∧ (m.type = "lin" ∨ m.type = "log") :=
        fun m hm => hvalid m (by simp [processedLines, hm])
      rcases hl.2 with ht | ht
      · rw [loop_lin log exp l hl.1 ht, ih _ hrest]
        simp [processedLines, List.append_assoc]
      · rw [loop_log log exp l hl.1 ht, ih _ hrest]
        simp [processedLines, List.append_assoc]

/-- A run of the loop that returns status 0 on lines with a positive bin count has met
only the types `lin` and `log`. -/
theorem loop_types (log exp : R → R)
    (lines : List (Option (GridLine R))) (energies : List R)
    (hpos : ∀ l ∈ processedLines lines, 0 < extract_size_t l.nBins)
    (hacc : (raysmith_read_loop log exp lines energies).1 = 0) :
    ∀ l ∈ processedLines lines, l.type = "lin" ∨ l.type = "log" := by
  induction lines generalizing energies with
  | nil => simp [processedLines]
  | cons o rest ih =>
    cases o with
    | none => simp [processedLines]
    | some l =>
      have hl := hpos l (by simp [processedLines])
      have hrest : ∀ m ∈ processedLines rest, 0 < extract_size_t m.nBins :=
        fun m hm => hpos m (by simp [processedLines, hm])
      by_cases h1 : l.type = "lin"
      · rw [loop_lin log exp l hl h1] at hacc
        intro m hm
        simp only [processedLines, List.mem_cons] at hm
        rcases hm with rfl | hm
        · exact Or.inl h1
        · exact ih _ hrest hacc m hm
      · by_cases h2 : l.type = "log"
        · rw [loop_log log exp l hl h2] at hacc
          intro m hm
          simp only [processedLines, List.mem_cons] at hm
          rcases hm with rfl | hm
          · exact Or.inr h2
          · exact ih _ hrest hacc m hm
        · have h0 : ¬ extract_size_t l.nBins ≤ 0 := by omega
          simp [raysmith_read_loop, h0, h1, h2] at hacc

/-- The boundaries of a valid line are strictly increasing, lie between `eMin` and
`eMax`, and there are at least two of them. -/
theorem lineBoundaries_bounds (l : GridLine ℝ) (hmin : 0 < l.eMin) (hlt : l.eMin < l.eMax)
    (hpos : 0 < l.nBins) (hfit : l.nBins < 2 ^ 64) (htype : l.type = "lin" ∨ l.type = "log") :
    (lineBoundaries Real.log Real.exp l).Pairwise (· < ·) ∧
    (∀ x ∈ lineBoundaries Real.log Real.exp l, l.eMin ≤ x ∧ x ≤ l.eMax) ∧
    2 ≤ (lineBoundaries Real.log Real.exp l).length := by
  obtain ⟨eMin, eMax, nBins, type⟩ := l
  simp only at hmin hlt hpos hfit htype
  have hc : ((nBins.toNat : ℕ) : ℝ) = (nBins : ℝ) := by
    rw [← Int.cast_natCast, Int.toNat_of_nonneg hpos.le]
  have hR : (0 : ℝ) < (nBins : ℝ) := by exact_mod_cast hpos
  have hnat : 0 < nBins.toNat := by omega
  rcases htype with rfl | rfl
  · have hstep : 0 < (eMax - eMin) / (nBins : ℝ) := div_pos (sub_pos.mpr hlt) hR
    have hlast : eMin + (nBins : ℝ) * ((eMax - eMin) / (nBins : ℝ)) = eMax := by field_simp
    rw [lineBoundaries_lin eMin eMax nBins hpos hfit]
    refine ⟨?_, ?_, ?_⟩
    · apply affine_pairwise
      intro i j hij
      have : (i : ℝ) < (j : ℝ) := by exact_mod_cast hij
      have := mul_lt_mul_of_pos_right this hstep
      linarith
    · intro x hx
      simp only [List.mem_map, List.mem_range] at hx
      obtain ⟨i, hi, rfl⟩ := hx
      have h0 : (0 : ℝ) ≤ (i : ℝ) := Nat.cast_nonneg i
      have h1 : (i : ℝ) ≤ (nBins : ℝ) := by
        rw [← hc]; exact_mod_cast Nat.lt_succ_iff.mp hi
      have := mul_le_mul_of_nonneg_right h1 hstep.le
      have := mul_nonneg h0 hstep.le
      constructor <;> linarith
    · simp only [List.length_map, List.length_range]; omega
  · have hlog : Real.log eMin < Real.log eMax := Real.log_lt_log hmin hlt
    have hstep : 0 < (Real.log eMax - Real.log eMin) / (nBins : ℝ) :=
      div_pos (sub_pos.mpr hlog) hR
    have hlast : Real.log eMin + (nBins : ℝ) * ((Real.log eMax - Real.log eMin) / (nBins : ℝ))
        = Real.log eMax := by field_simp
    rw [lineBoundaries_log eMin eMax nBins hpos hfit]
    refine ⟨?_, ?_, ?_⟩
    · apply affine_pairwise
      intro i j hij
      have : (i : ℝ) < (j : ℝ) := by exact_mod_cast hij
      have := mul_lt_mul_of_pos_right this hstep
      apply Real.exp_lt_exp.mpr
      linarith
    · intro x hx
      simp only [List.mem_map, List.mem_range] at hx
      obtain ⟨i, hi, rfl⟩ := hx
      have h0 : (0 : ℝ) ≤ (i : ℝ) := Nat.cast_nonneg i
      have h1 : (i : ℝ) ≤ (nBins : ℝ) := by
        rw [← hc]; exact_mod_cast Nat.lt_succ_iff.mp hi
      have h2 := mul_le_mul_of_nonneg_right h1 hstep.le
      have h3 := mul_nonneg h0 hstep.le
      constructor
      · calc eMin = Real.exp (Real.log eMin) := (Real.exp_log hmin).symm
          _ ≤ _ := Real.exp_le_exp.mpr (by linarith)
      · calc _ ≤ Real.exp (Real.log eMax) := Real.exp_le_exp.mpr (by linarith)
          _ = eMax := Real.exp_log (hmin.trans hlt)
    · simp only [List.length_map, List.length_range]; omega

/-- The concatenated boundaries of valid lines, each starting above the end of the one
before, are strictly increasing and none lies below the start of the first line. -/
theorem boundaries_increasing (ls : List (GridLine ℝ))
    (hvalid : ∀ l ∈ ls, 0 < l.eMin ∧ l.eMin < l.eMax ∧ 0 < l.nBins ∧ l.nBins < 2 ^ 64 ∧
      (l.type = "lin" ∨ l.type = "log"))
    (hsep : ls.Chain' fun a b => a.eMax < b.eMin) :
    ((ls.map (lineBoundaries Real.log Real.exp)).flatten).Pairwise (· < ·) ∧
    ∀ l ∈ ls.head?, ∀ x ∈ (ls.map (lineBoundaries Real.log Real.exp)).flatten, l.eMin ≤ x := by
  induction ls with
  | nil => simp
  | cons l rest ih =>
    obtain ⟨h1, h2, h3, h4, h5⟩ := hvalid l (by simp)
    obtain ⟨hp, hb, _⟩ := lineBoundaries_bounds l h1 h2 h3 h4 h5
    have hrest := ih (fun m hm => hvalid m (by simp [hm])) (List.Chain'.tail hsep)
    have hlow : ∀ y ∈ (rest.map (lineBoundaries Real.log Real.exp)).flatten, l.eMax < y := by
      intro y hy
      cases rest with
      | nil => simp at hy
      | cons m ms =>
        have hm : l.eMax < m.eMin := by
          rw [List.chain'_cons] at hsep
          exact hsep.1
        exact lt_of_lt_of_le hm (hrest.2 m (by simp) y hy)
    constructor
    · simp only [List.map_cons, List.flatten_cons]
      rw [List.pairwise_append]
      exact ⟨hp, hrest.1, fun x hx y hy => lt_of_le_of_lt (hb x hx).2 (hlow y hy)⟩
    · intro l' hl' x hx
      simp only [List.head?_cons, Option.mem_def, Option.some.injEq] at hl'
      subst hl'
      simp only [List.map_cons, List.flatten_cons, List.mem_append] at hx
      rcases hx with hx | hx
      · exact (hb x hx).1
      · exact le_of_lt (lt_trans h2 (hlow x hx))

theorem lineBoundaries_length (log exp : R → R) (l : GridLine R) :
    (lineBoundaries log exp l).length = extract_size_t l.nBins + 1 := by
  unfold lineBoundaries
  split <;> simp

/-- C3, at the file whose only line is `1.0 10.0 -5 lin` (newline-terminated): the bin
count `-5` is extracted into the unsigned `nBins` as `2 ^ 64 - 5`, the test `nBins <= 0`
does not fire, and `raysmith_read` does not return status 2: the line is taken as a request
for `2 ^ 64 - 4` boundaries. With the mode `foo` in place of `lin` the status is 3, not 2. -/
theorem raysmith_read_negative_bins :
    extract_size_t (-5) = 2 ^ 64 - 5 ∧
    (raysmith_read Real.log Real.exp (some ⟨[some ⟨1.0, 10.0, -5, "lin"⟩], none⟩) []).1 = 0 ∧
    (raysmith_read Real.log Real.exp (some ⟨[some ⟨1.0, 10.0, -5, "lin"⟩], none⟩) []).2.length
      = 2 ^ 64 - 4 ∧
    raysmith_read Real.log Real.exp (some ⟨[some ⟨1.0, 10.0, -5, "foo"⟩], none⟩) [] = (3, []) := by
  have he : extract_size_t (-5) = 2 ^ 64 - 5 := by decide
  have he1 : extract_size_t (-5) + 1 = 2 ^ 64 - 4 := by decide
  have hpos : 0 < extract_size_t (-5) := by decide
  have hnp : ¬ extract_size_t (-5) ≤ 0 := by decide
  have hloop := loop_lin Real.log Real.exp ⟨1.0, 10.0, -5, "lin"⟩ hpos rfl [] []
  have hlen := lineBoundaries_length Real.log Real.exp ⟨1.0, 10.0, -5, "lin"⟩
  have hread : (raysmith_read Real.log Real.exp
      (some ⟨[some ⟨1.0, 10.0, -5, "lin"⟩], none⟩) []).2
      = lineBoundaries Real.log Real.exp ⟨1.0, 10.0, -5, "lin"⟩ := by
    simp only [raysmith_read]
    rw [hloop, raysmith_read_loop]
    exact List.nil_append _
  refine ⟨he, ?_, (congrArg List.length hread).trans (hlen.trans he1), ?_⟩
  · simp only [raysmith_read]
    rw [hloop, raysmith_read_loop]
  · simp only [raysmith_read, raysmith_read_loop, hnp, if_false]
    decide

/-- C4, at the file that holds the single line `1.0 10.0 9 log` with no newline after it:
`getline` reads the line and meets the end of the file, the loop test `!fstream.eof()`
fails, and `raysmith_read` returns status 0 with no boundary at all. The same line
followed by a newline yields 10 boundaries. -/
theorem raysmith_read_unterminated_line :
    raysmith_read Real.log Real.exp (some ⟨[], some ⟨1.0, 10.0, 9, "log"⟩⟩) [] = (0, []) ∧
    (raysmith_read Real.log Real.exp (some ⟨[some ⟨1.0, 10.0, 9, "log"⟩], none⟩) []).1 = 0 ∧
    (raysmith_read Real.log Real.exp (some ⟨[some ⟨1.0, 10.0, 9, "log"⟩], none⟩) []).2.length
      = 10 := by
  have he : extract_size_t 9 = 9 := by decide
  have hpos : 0 < extract_size_t 9 := by rw [he]; norm_num
  have hloop := loop_log Real.log Real.exp ⟨1.0, 10.0, 9, "log"⟩ hpos rfl [] []
  have h2 : ¬ ("log" = "lin") := by decide
  refine ⟨rfl, ?_, ?_⟩
  · simp only [raysmith_read]
    rw [hloop, raysmith_read_loop]
  · simp only [raysmith_read]
    rw [hloop, raysmith_read_loop]
    simp [lineBoundaries, he, h2]

/-! ## The temperature grid -/

/-- C6: for `2 ≤ ntsteps` (an `int`, so below `2 ^ 31`) and `0 < tstart < tend`, over the
reals, the temperature grid has exactly `ntsteps` values
`10 ^ (log10 tstart + i * (log10 tend - log10 tstart) / (ntsteps - 1))`, the first is
`tstart`, the last is `tend`, and the ratio of any two consecutive values is the same
number; for `ntsteps = 3`, `tstart = 1`, `tend = 100` the values are `1, 10, 100`. -/
theorem raysmith_parVals_grid (ntsteps : ℤ) (tstart tend : ℝ) (hn : 2 ≤ ntsteps)
    (hint : ntsteps < 2 ^ 31) (h0 : 0 < tstart) (hlt : tstart < tend) :
    ((raysmith_parVals (Real.logb 10) (fun x y : ℝ => x ^ y) tstart tend ntsteps).length : ℤ)
      = ntsteps ∧
    (∀ i : ℕ, (i : ℤ) < ntsteps →
      (raysmith_parVals (Real.logb 10) (fun x y : ℝ => x ^ y) tstart tend ntsteps)[i]?
        = some ((10 : ℝ) ^ (Real.logb 10 tstart
            + (i : ℝ) * (Real.logb 10 tend - Real.logb 10 tstart) / ((ntsteps : ℝ) - 1)))) ∧
    (raysmith_parVals (Real.logb 10) (fun x y : ℝ => x ^ y) tstart tend ntsteps).head?
      = some tstart ∧
    (raysmith_parVals (Real.logb 10) (fun x y : ℝ => x ^ y) tstart tend ntsteps).getLast?
      = some tend ∧
    (∃ q : ℝ, ∀ i : ℕ, (i : ℤ) + 1 < ntsteps → ∃ a b : ℝ,
      (raysmith_parVals (Real.logb 10) (fun x y : ℝ => x ^ y) tstart tend ntsteps)[i]? = some a ∧
      (raysmith_parVals (Real.logb 10) (fun x y : ℝ => x ^ y) tstart tend ntsteps)[i + 1]?
        = some b ∧ a ≠ 0 ∧ b / a = q) ∧
    raysmith_parVals (Real.logb 10) (fun x y : ℝ => x ^ y) 1 100 3 = [1, 10, 100] := by
  have hsz : to_size_t ntsteps = ntsteps.toNat :=
    to_size_t_of_nonneg ntsteps (by omega) (by omega)
  obtain ⟨m, hm⟩ : ∃ m : ℕ, ntsteps.toNat = m + 1 := ⟨ntsteps.toNat - 1, by omega⟩
  have hmZ : (ntsteps : ℤ) = (m : ℤ) + 1 := by omega
  have hmR : ((ntsteps - 1 : ℤ) : ℝ) = (m : ℝ) := by
    rw [hmZ]; push_cast; ring
  have hmR2 : (ntsteps : ℝ) - 1 = (m : ℝ) := by
    rw [hmZ]; push_cast; ring
  have hmpos : (m : ℝ) ≠ 0 := by
    have : 0 < m := by omega
    exact_mod_cast this.ne'
  have h10 : (10.0 : ℝ) = 10 := by norm_num
  have hdef : raysmith_parVals (Real.logb 10) (fun x y : ℝ => x ^ y) tstart tend ntsteps
      = (List.range (m + 1)).map fun i : ℕ => (10 : ℝ) ^ (Real.logb 10 tstart
          + (i : ℝ) * ((Real.logb 10 tend - Real.logb 10 tstart) / (m : ℝ))) := by
    simp only [raysmith_parVals, hsz, hm, hmR, h10]
  have hpow : ∀ x : ℝ, 0 < x → (10 : ℝ) ^ Real.logb 10 x = x := fun x hx =>
    Real.rpow_logb (by norm_num) (by norm_num) hx
  refine ⟨?_, ?_, ?_, ?_, ?_, ?_⟩
  · rw [hdef]
    simp only [List.length_map, List.length_range]
    omega
  · intro i hi
    rw [hdef, affine_getElem? _ _ i (by omega), hmR2]
    congr 2
    ring
  · rw [hdef, affine_head?]
    simp [hpow tstart h0]
  · rw [hdef, affine_getLast?]
    have : Real.logb 10 tstart + (m : ℝ) * ((Real.logb 10 tend - Real.logb 10 tstart) / (m : ℝ))
        = Real.logb 10 tend := by field_simp
    rw [this, hpow tend (h0.trans hlt)]
  · refine ⟨(10 : ℝ) ^ ((Real.logb 10 tend - Real.logb 10 tstart) / (m : ℝ)), ?_⟩
    intro i hi
    rw [hdef]
    refine ⟨_, _, affine_getElem? _ _ i (by omega), affine_getElem? _ _ (i + 1) (by omega),
      (Real.rpow_pos_of_pos (by norm_num) _).ne', ?_⟩
    rw [← Real.rpow_sub (by norm_num)]
    congr 1
    push_cast
    ring
  · have h1 : Real.logb 10 1 = 0 := Real.logb_one
    have h100 : Real.logb 10 100 = 2 := by
      have : (100 : ℝ) = (10 : ℝ) ^ (2 : ℝ) := by norm_num
      rw [this, Real.logb_rpow (by norm_num) (by norm_num)]
    have hs : to_size_t 3 = 3 := by decide
    simp only [raysmith_parVals, hs, h1, h100, h10]
    norm_num [List.range_succ]

/-- The grid of C6 for four steps from 1 to 1000. -/
theorem raysmith_parVals_grid_witness :
    ((raysmith_parVals (Real.logb 10) (fun x y : ℝ => x ^ y) 1 1000 4).length : ℤ) = 4 ∧
    (raysmith_parVals (Real.logb 10) (fun x y : ℝ => x ^ y) 1 1000 4).head? = some 1 ∧
    (raysmith_parVals (Real.logb 10) (fun x y : ℝ => x ^ y) 1 1000 4).getLast? = some 1000 :=
  have h := raysmith_parVals_grid 4 1 1000 (by norm_num) (by norm_num) (by norm_num) (by norm_num)
  ⟨h.1, h.2.2.1, h.2.2.2.1⟩

/-! ## The table the driver assembles -/

theorem rayspec_wrap_some (env : Env R) (energies params : List R)
    (hne : energies ≠ []) :
    rayspec_wrap env energies params = some (wrapFlux env energies params) ∧
    (wrapFlux env energies params).length = energies.length - 1 := by
  have h : ¬ energies.length = 0 := by
    intro h0; exact hne (List.length_eq_zero.mp h0)
  simp [wrapFlux, rayspec_wrap, h]

theorem restore_floor (T : R) (k : Nat) (hk : k < 12) :
    (floorParams T).set (k + 1) 1.0 = elementParams T k ∧
    ((floorParams T).set (k + 1) 1.0).set (k + 1) 1.0e-7 = floorParams T := by
  interval_cases k <;> exact ⟨rfl, rfl⟩

theorem raysmith_elements_eq (env : Env R) (energies flux : List R)
    (hne : energies ≠ []) (T : R) (ielts : List Nat) (hk : ∀ k ∈ ielts, k < 12)
    (tabSpec : tableSpectrum R) :
    raysmith_elements env energies flux ielts (floorParams T) tabSpec
      = some (floorParams T,
          { tabSpec with addFlux := tabSpec.addFlux ++ ielts.map fun k : Nat =>
              subtractFlux (wrapFlux env energies (elementParams T k)) flux }) := by
  induction ielts generalizing tabSpec with
  | nil => simp [raysmith_elements]
  | cons k rest ih =>
    obtain ⟨h1, h2⟩ := restore_floor T k (hk k (by simp))
    have hw := (rayspec_wrap_some env energies (elementParams T k) hne).1
    simp only [raysmith_elements, h1, hw]
    rw [← h1, h2, ih (fun j hj => hk j (by simp [hj]))]
    simp [tableSpectrum.pushaddFlux, subtractFlux, h1]

theorem raysmith_spectra_eq (env : Env R) (energies : List R)
    (hne : energies ≠ []) (ispecs : List Nat) (x : R) (tab : table R) :
    ∃ y : R, raysmith_spectra env energies ispecs (floorParams x) tab
      = some (floorParams y,
          { tab with Spectra := (tab.Spectra ++ ispecs.map fun i : Nat =>
              spectrumAt env energies
                ((tab.Parameters.getD 0 default).TabulatedValues.getD i 0)) }) := by
  induction ispecs generalizing x tab with
  | nil => exact ⟨x, by simp [raysmith_spectra]⟩
  | cons i rest ih =>
    have hset : ∀ v : R, (floorParams x).set 0 v = floorParams v := fun v => rfl
    have hget : ∀ v : R, (floorParams v).getD 0 0 = v := fun v => rfl
    have hw := fun v : R => (rayspec_wrap_some env energies (floorParams v) hne).1
    have hel := fun (v : R) (ts : tableSpectrum R) =>
      raysmith_elements_eq env energies (wrapFlux env energies (floorParams v)) hne v
        (List.range Nelements) (by intro k hk; simpa [Nelements] using hk) ts
    simp only [raysmith_spectra, hset, hget, hw, hel]
    obtain ⟨y, hy⟩ := ih ((tab.Parameters.getD 0 default).TabulatedValues.getD i 0)
      (tab.pushSpectrum
        { ParameterValues := [(tab.Parameters.getD 0 default).TabulatedValues.getD i 0]
          Flux := wrapFlux env energies
            (floorParams ((tab.Parameters.getD 0 default).TabulatedValues.getD i 0))
          addFlux := [] ++ (List.range Nelements).map fun k : Nat =>
            subtractFlux (wrapFlux env energies
              (elementParams ((tab.Parameters.getD 0 default).TabulatedValues.getD i 0) k))
              (wrapFlux env energies
                (floorParams ((tab.Parameters.getD 0 default).TabulatedValues.getD i 0))) })
    refine ⟨y, ?_⟩
    simp only [tableSpectrum.new] at hy ⊢
    rw [hy]
    simp [table.pushSpectrum, spectrumAt]

theorem copy_energies (energies : List R) :
    ((List.range energies.length).map fun i : Nat => energies.getD i 0) = energies := by
  apply List.ext_getElem
  · simp
  · intro i h1 h2
    simp [List.getD_eq_getElem?_getD, List.getElem?_eq_getElem h2]

/-- The table `raysmith` assembles, in closed form. -/
theorem raysmith_outputTable_eq (env : Env R) (p : Pars R)
    (energies : List R) (hne : energies ≠ []) (hn : 0 ≤ p.ntsteps) :
    ∃ tab : table R, raysmith_outputTable env p energies = some tab ∧
      tab.Parameters
        = ⟨"kT", 1, 1.0, 0.01, p.tstart, p.tstart, p.tend, p.tend,
            raysmith_parVals env.log10 env.pow p.tstart p.tend p.ntsteps⟩
          :: elements.map (fun name => ⟨name, -1, 1.0, -0.01, 0.0, 0.0, 1000.0, 1000.0, []⟩) ∧
      tab.NumIntParams = 1 ∧ tab.NumAddParams = 12 ∧
      tab.Energies = energies ∧
      tab.Spectra = (List.range (to_size_t p.ntsteps)).map fun i : Nat =>
        spectrumAt env energies
          ((raysmith_parVals env.log10 env.pow p.tstart p.tend p.ntsteps).getD i 0) := by
  have hneg : ¬ p.ntsteps < 0 := by omega
  have hpar : ((List.range Nelements).foldl (fun (ps : List R) i => ps.set (i + 1) 1.0e-7)
      (List.replicate ((1 : Int) + (Nelements : Int)).toNat 0)) = floorParams 0 := rfl
  simp only [raysmith_outputTable, hneg, if_false, hpar, copy_energies]
  obtain ⟨y, hy⟩ := raysmith_spectra_eq env energies hne (List.range (to_size_t p.ntsteps)) 0
    ({ ((List.range Nelements).foldl
        (fun (t : table R) i =>
          t.pushParameter ⟨elements.getD i "", -1, 1.0, -0.01, 0.0, 0.0, 1000.0, 1000.0, []⟩)
        ((table.new R).pushParameter
          ⟨"kT", 1, 1.0, 0.01, p.tstart, p.tstart, p.tend, p.tend,
            raysmith_parVals env.log10 env.pow p.tstart p.tend p.ntsteps⟩)) with
        ModelName := "vraymond_t", ModelUnits := "ph/cm^2/s", NumAddParams := Nelements,
        NumIntParams := 1, isError := false, isRedshift := true, isAdditive := true,
        Energies := energies, EnergyUnits := "keV" })
  rw [hy]
  refine ⟨_, rfl, ?_, rfl, rfl, rfl, ?_⟩
  · simp [Nelements, List.range_succ, table.pushParameter, table.new, elements]
  · simp [Nelements, List.range_succ, table.pushParameter, table.new, elements]

theorem spectra_getElem? (env : Env R) (p : Pars R) (energies : List R)
    (hn : 0 ≤ p.ntsteps) (hint : p.ntsteps < 2 ^ 31) (i : ℕ) (hi : (i : ℤ) < p.ntsteps) :
    (raysmith_parVals env.log10 env.pow p.tstart p.tend p.ntsteps)[i]?
      = some (env.pow 10.0 (env.log10 p.tstart
          + (i : R) * ((env.log10 p.tend - env.log10 p.tstart) / ((p.ntsteps - 1 : ℤ) : R)))) ∧
    ((List.range (to_size_t p.ntsteps)).map fun i : Nat =>
        spectrumAt env energies
          ((raysmith_parVals env.log10 env.pow p.tstart p.tend p.ntsteps).getD i 0))[i]?
      = some (spectrumAt env energies (env.pow 10.0 (env.log10 p.tstart
          + (i : R) * ((env.log10 p.tend - env.log10 p.tstart)
              / ((p.ntsteps - 1 : ℤ) : R))))) := by
  have hsz : to_size_t p.ntsteps = p.ntsteps.toNat :=
    to_size_t_of_nonneg p.ntsteps hn (by omega)
  have hi2 : i < p.ntsteps.toNat := by omega
  have h1 : (raysmith_parVals env.log10 env.pow p.tstart p.tend p.ntsteps)[i]?
      = some (env.pow 10.0 (env.log10 p.tstart
          + (i : R) * ((env.log10 p.tend - env.log10 p.tstart)
              / ((p.ntsteps - 1 : ℤ) : R)))) := by
    simp [raysmith_parVals, hsz, List.getElem?_map, List.getElem?_range hi2]
  refine ⟨h1, ?_⟩
  simp [hsz, List.getElem?_map, List.getElem?_range hi2, List.getD_eq_getElem?_getD, h1]

/-- C7: for an energy grid of `N + 1` boundaries, `1 ≤ N`, and `2 ≤ ntsteps` (an `int`, so
below `2 ^ 31`), the table `raysmith` assembles before validation has exactly 13
parameters in order, the interpolated `kT` with the `ntsteps` tabulated temperatures, then
the 12 additive element parameters `He` .. `Ni`, each with no tabulated value; the declared
counts are 1 and 12; and there are exactly `ntsteps` spectra, the `i`-th holding the single
parameter value `T_i`, a baseline flux of length `N` and exactly 12 additional fluxes, each
of length `N`. -/
theorem raysmith_table_shape (env : Env R) (p : Pars R)
    (energies : List R) (N : ℕ) (hN : 1 ≤ N) (hlen : energies.length = N + 1)
    (hn : 2 ≤ p.ntsteps) (hint : p.ntsteps < 2 ^ 31) :
    ∃ tab : table R, raysmith_outputTable env p energies = some tab ∧
      tab.Parameters.length = 13 ∧
      tab.Parameters
        = ⟨"kT", 1, 1.0, 0.01, p.tstart, p.tstart, p.tend, p.tend,
            raysmith_parVals env.log10 env.pow p.tstart p.tend p.ntsteps⟩
          :: ["He", "C ", "N ", "O ", "Ne", "Mg", "Si", "S ", "Ar", "Ca", "Fe", "Ni"].map
              (fun name => ⟨name, -1, 1.0, -0.01, 0.0, 0.0, 1000.0, 1000.0, []⟩) ∧
      ((raysmith_parVals env.log10 env.pow p.tstart p.tend p.ntsteps).length : ℤ)
        = p.ntsteps ∧
      tab.NumIntParams = 1 ∧ tab.NumAddParams = 12 ∧
      (tab.Spectra.length : ℤ) = p.ntsteps ∧
      ∀ i : ℕ, (i : ℤ) < p.ntsteps → ∃ spec : tableSpectrum R,
        tab.Spectra[i]? = some spec ∧
        spec.ParameterValues = [env.pow 10.0 (env.log10 p.tstart
          + (i : R) * ((env.log10 p.tend - env.log10 p.tstart)
              / ((p.ntsteps - 1 : ℤ) : R)))] ∧
        (raysmith_parVals env.log10 env.pow p.tstart p.tend p.ntsteps)[i]?
          = spec.ParameterValues.head? ∧
        spec.Flux.length = N ∧
        spec.addFlux.length = 12 ∧
        ∀ f ∈ spec.addFlux, f.length = N := by
  have hne : energies ≠ [] := by
    intro h; rw [h] at hlen; simp at hlen
  have hsz : to_size_t p.ntsteps = p.ntsteps.toNat :=
    to_size_t_of_nonneg p.ntsteps (by omega) (by omega)
  obtain ⟨tab, htab, hP, hI, hA, _, hS⟩ :=
    raysmith_outputTable_eq env p energies hne (by omega)
  have hwl : ∀ ps : List R, (wrapFlux env energies ps).length = N := by
    intro ps
    rw [(rayspec_wrap_some env energies ps hne).2, hlen]
    omega
  refine ⟨tab, htab, ?_, ?_, ?_, hI, hA, ?_, ?_⟩
  · rw [hP]; simp [elements]
  · rw [hP]; simp [elements]
  · simp only [raysmith_parVals, List.length_map, List.length_range, hsz]
    omega
  · rw [hS]
    simp only [List.length_map, List.length_range, hsz]
    omega
  · intro i hi
    obtain ⟨h1, h2⟩ := spectra_getElem? env p energies (by omega) hint i hi
    rw [hS]
    refine ⟨_, h2, rfl, ?_, ?_, ?_, ?_⟩
    · rw [h1]; rfl
    · exact hwl _
    · simp [spectrumAt, Nelements]
    · intro f hf
      simp only [spectrumAt, List.mem_map] at hf
      obtain ⟨k, _, rfl⟩ := hf
      simp [subtractFlux, hwl]

/-- The run of `raysmith` once the parameters are read, the energy file is read with
status 0 and the table is assembled. -/
theorem raysmith_after_table (env : Env R) (p : Pars R)
    (file : EnergyFile R) (tab : table R)
    (hpar : raysmith_getpar env = .ok p) (hopen : env.ifstream p.efilenm = some file)
    (hread : (raysmith_read env.log env.exp (some file) []).1 = 0)
    (htab : raysmith_outputTable env p (raysmith_read env.log env.exp (some file) []).2
      = some tab) :
    raysmith env =
      if (env.check tab).length > 0 then ⟨some (-1), []⟩
      else if (env.ifstream p.filename).isSome then
        if p.clobber then
          if env.remove p.filename ≠ 0 then ⟨some (env.remove p.filename), [.remove p.filename]⟩
          else ⟨some (env.write tab p.filename), [.remove p.filename, .write tab p.filename]⟩
        else ⟨some (-2), []⟩
      else ⟨some (env.write tab p.filename), [.write tab p.filename]⟩ := by
  simp only [raysmith, hpar, hopen, hread, htab]
  simp

theorem testEnv_getpar (efile : Option (EnergyFile ℚ)) (output : FileState ℚ) (msg : String) :
    raysmith_getpar (testEnv efile output 0 msg) = .ok (testPars false) := by
  simp [raysmith_getpar, testEnv, testPars]

theorem testEnv_efile (text : EnergyFile ℚ) (output : FileState ℚ) (msg : String) :
    (testEnv (some text) output 0 msg).ifstream (testPars false).efilenm = some text := by
  simp [Env.ifstream, testEnv, testPars]

theorem testEnv_output (efile : Option (EnergyFile ℚ)) (output : FileState ℚ) (msg : String) :
    (testEnv efile output 0 msg).files (testPars false).filename = output := by
  simp [testEnv, testPars]

/-- The run on `testEnv` with the energy file `1 2 1 lin`: the table is assembled, and what
follows depends on the message of `check` and on whether the output path can be opened. -/
theorem testEnv_run (output : FileState ℚ) (msg : String) :
    ∃ tab : table ℚ,
      raysmith_outputTable (testEnv (some ⟨[some ⟨1, 2, 1, "lin"⟩], none⟩) output 0 msg)
        (testPars false) [1, 2] = some tab ∧
      raysmith (testEnv (some ⟨[some ⟨1, 2, 1, "lin"⟩], none⟩) output 0 msg) =
        if msg.length > 0 then ⟨some (-1), []⟩
        else if ((testEnv (some ⟨[some ⟨1, 2, 1, "lin"⟩], none⟩) output 0 msg).ifstream
            "filename").isSome then ⟨some (-2), []⟩
        else ⟨some 0, [.write tab "filename"]⟩ := by
  have he : extract_size_t 1 = 1 := by decide
  have hrd : raysmith_read (fun x : ℚ => x) (fun x : ℚ => x)
      (some ⟨[some ⟨1, 2, 1, "lin"⟩], none⟩) [] = (0, [1, 2]) := by
    simp only [raysmith_read]
    rw [loop_lin _ _ ⟨1, 2, 1, "lin"⟩ (by rw [he]; norm_num) rfl, raysmith_read_loop]
    simp [lineBoundaries, he, List.range_succ]
  obtain ⟨tab, htab, _⟩ := raysmith_outputTable_eq
    (testEnv (some ⟨[some ⟨1, 2, 1, "lin"⟩], none⟩) output 0 msg) (testPars false) [1, 2]
    (by simp) (by simp [testPars])
  have hlog : (testEnv (some ⟨[some ⟨1, 2, 1, "lin"⟩], none⟩) output 0 msg).log
      = (fun x : ℚ => x) := rfl
  have hexp : (testEnv (some ⟨[some ⟨1, 2, 1, "lin"⟩], none⟩) output 0 msg).exp
      = (fun x : ℚ => x) := rfl
  refine ⟨tab, htab, ?_⟩
  rw [raysmith_after_table _ (testPars false) ⟨[some ⟨1, 2, 1, "lin"⟩], none⟩ tab
    (testEnv_getpar _ _ _) (testEnv_efile _ _ _) (by rw [hlog, hexp, hrd])
    (by rw [hlog, hexp, hrd]; exact htab)]
  simp [testEnv, testPars]

/-- In a run that passes validation (the parameters are read, the energy file is read
with status 0, the table is assembled and `check` returns an empty message), when the
output path can be opened for reading and `clobber` is false, `raysmith` returns -2 and
calls neither `remove` nor `write`. In every run, a call of `write` is made only with the
assembled table on the output path, after `check` returned an empty message, and only if
the output path could not be opened for reading (the call is then the only one) or
`clobber` was set and `remove` returned 0 (the call then follows that of `remove`). -/
theorem raysmith_write_calls (env : Env R) :
    (∀ (p : Pars R) (file : EnergyFile R) (tab : table R),
      raysmith_getpar env = .ok p → env.ifstream p.efilenm = some file →
      (raysmith_read env.log env.exp (some file) []).1 = 0 →
      raysmith_outputTable env p (raysmith_read env.log env.exp (some file) []).2 = some tab →
      (env.check tab).length = 0 →
      (env.ifstream p.filename).isSome = true → p.clobber = false →
      raysmith env = ⟨some (-2), []⟩) ∧
    (∀ (tab : table R) (filename : String),
      Effect.write tab filename ∈ (raysmith env).effects →
      ∃ (p : Pars R) (file : EnergyFile R),
        raysmith_getpar env = .ok p ∧ env.ifstream p.efilenm = some file ∧
        (raysmith_read env.log env.exp (some file) []).1 = 0 ∧
        raysmith_outputTable env p (raysmith_read env.log env.exp (some file) []).2
          = some tab ∧
        filename = p.filename ∧
        (env.check tab).length = 0 ∧
        (((env.ifstream p.filename).isSome = false ∧
            (raysmith env).effects = [.write tab p.filename]) ∨
          ((env.ifstream p.filename).isSome = true ∧ p.clobber = true ∧
            env.remove p.filename = 0 ∧
            (raysmith env).effects = [.remove p.filename, .write tab p.filename]))) := by
  constructor
  · intro p file tab hpar hopen hread htab hcheck hex hcl
    rw [raysmith_after_table env p file tab hpar hopen hread htab]
    simp [hcheck, hex, hcl]
  · intro tab filename h
    cases hpar : raysmith_getpar env with
    | error s => simp [raysmith, hpar] at h
    | ok p =>
      cases hopen : env.ifstream p.efilenm with
      | none => simp [raysmith, hpar, hopen] at h
      | some file =>
        by_cases hread : (raysmith_read env.log env.exp (some file) []).1 = 0
        · cases htab : raysmith_outputTable env p
              (raysmith_read env.log env.exp (some file) []).2 with
          | none => simp [raysmith, hpar, hopen, hread, htab] at h
          | some t =>
            rw [raysmith_after_table env p file t hpar hopen hread htab] at h ⊢
            refine ⟨p, file, rfl, hopen, hread, ?_⟩
            by_cases hc : (env.check t).length > 0
            · simp [hc] at h
            · have hc0 : (env.check t).length = 0 := by omega
              by_cases hex : (env.ifstream p.filename).isSome = true
              · by_cases hcl : p.clobber = true
                · by_cases hrm : env.remove p.filename = 0
                  · simp [hc0, hex, hcl, hrm] at h ⊢
                    obtain ⟨rfl, rfl⟩ := h
                    simp [htab, hc0]
                  · simp [hc0, hex, hcl, hrm] at h
                · simp [hc0, hex, hcl] at h
              · simp [hc0, hex] at h ⊢
                obtain ⟨rfl, rfl⟩ := h
                simp [htab, hc0]
        · simp [raysmith, hpar, hopen, hread] at h

/-- C10, at the run on `testEnv` with the energy file `1 2 1 lin`, an output file that
exists but cannot be opened for reading, `clobber` false and an empty message from
`check`: the stream `ifs3` is not good, the block that looks at `clobber` is skipped, and
`raysmith` calls `write` on the existing path and returns its status 0, not -2. When
the output file can be opened for reading, the same run returns -2 and calls neither
`remove` nor `write`. -/
theorem raysmith_unreadable_output :
    ∃ tab : table ℚ,
      raysmith_outputTable (testEnv (some ⟨[some ⟨1, 2, 1, "lin"⟩], none⟩) .unreadable 0 "")
        (testPars false) [1, 2] = some tab ∧
      (testEnv (some ⟨[some ⟨1, 2, 1, "lin"⟩], none⟩) .unreadable 0 "").files
        (testPars false).filename = .unreadable ∧
      (testPars false).clobber = false ∧
      raysmith (testEnv (some ⟨[some ⟨1, 2, 1, "lin"⟩], none⟩) .unreadable 0 "")
        = ⟨some 0, [.write tab "filename"]⟩ ∧
      raysmith (testEnv (some ⟨[some ⟨1, 2, 1, "lin"⟩], none⟩) (.readable ⟨[], none⟩) 0 "")
        = ⟨some (-2), []⟩ := by
  obtain ⟨tab, htab, hrun⟩ := testEnv_run .unreadable ""
  obtain ⟨_, _, hrun2⟩ := testEnv_run (.readable ⟨[], none⟩) ""
  refine ⟨tab, htab, testEnv_output _ _ _, rfl, ?_, ?_⟩
  · rw [hrun]
    simp [Env.ifstream, testEnv]
  · rw [hrun2]
    simp [Env.ifstream, testEnv]

theorem loop_skip_valid (log exp : R → R) (pre : List (GridLine R))
    (tail : List (Option (GridLine R))) (energies : List R)
    (hvalid : ∀ m ∈ pre, 0 < extract_size_t m.nBins ∧ (m.type = "lin" ∨ m.type = "log")) :
    raysmith_read_loop log exp (pre.map some ++ tail) energies
      = raysmith_read_loop log exp tail
          (energies ++ (pre.map (lineBoundaries log exp)).flatten) := by
  induction pre generalizing energies with
  | nil => simp
  | cons l rest ih =>
    have hl := hvalid l (by simp)
    have hrest : ∀ m ∈ rest, 0 < extract_size_t m.nBins ∧ (m.type = "lin" ∨ m.type = "log") :=
      fun m hm => hvalid m (by simp [hm])
    simp only [List.map_cons, List.cons_append, List.flatten_cons]
    rcases hl.2 with ht | ht
    · rw [loop_lin log exp l hl.1 ht, ih _ hrest, List.append_assoc]
    · rw [loop_log log exp l hl.1 ht, ih _ hrest, List.append_assoc]

/-- C9 as stated fails: a run whose energy file cannot be opened and a run whose table
fails the self-check both return -1. -/
theorem raysmith_statuses_not_distinct :
    (raysmith (testEnv none .absent 0 "")).status = some (-1) ∧
    (raysmith (testEnv (some ⟨[some ⟨1, 2, 1, "lin"⟩], none⟩) .absent 0
      "inconsistent table")).status = some (-1) := by
  constructor
  · have hopen : (testEnv none .absent 0 "").ifstream (testPars false).efilenm = none := by
      simp [Env.ifstream, testEnv, testPars]
    simp [raysmith, testEnv_getpar, hopen]
  · obtain ⟨tab, _, hrun⟩ := testEnv_run .absent "inconsistent table"
    rw [hrun]
    have hmsg : ("inconsistent table" : String).length > 0 := by decide
    rw [if_pos hmsg]

/-- C9, amended: in a run whose parameters are read, the status is -1 when the energy
file cannot be opened, 2 when the first rejected line has a zero bin count, 3 when it has
a positive bin count and a mode that is neither `lin` nor `log`, -1 when the self-check
returns a message, and -2 when the output file exists and `clobber` is false. These
statuses are not zero, and 2, 3, -2 and the shared -1 differ from one another. -/
theorem raysmith_failure_statuses (env : Env R) (p : Pars R)
    (hpar : raysmith_getpar env = .ok p) :
    (env.ifstream p.efilenm = none → (raysmith env).status = some (-1)) ∧
    (∀ (file : EnergyFile R) (pre : List (GridLine R)) (l : GridLine R)
        (rest : List (Option (GridLine R))),
      env.ifstream p.efilenm = some file → file.lines = pre.map some ++ some l :: rest →
      (∀ m ∈ pre, 0 < extract_size_t m.nBins ∧ (m.type = "lin" ∨ m.type = "log")) →
      extract_size_t l.nBins = 0 → (raysmith env).status = some 2) ∧
    (∀ (file : EnergyFile R) (pre : List (GridLine R)) (l : GridLine R)
        (rest : List (Option (GridLine R))),
      env.ifstream p.efilenm = some file → file.lines = pre.map some ++ some l :: rest →
      (∀ m ∈ pre, 0 < extract_size_t m.nBins ∧ (m.type = "lin" ∨ m.type = "log")) →
      0 < extract_size_t l.nBins → l.type ≠ "lin" → l.type ≠ "log" →
      (raysmith env).status = some 3) ∧
    (∀ (file : EnergyFile R) (tab : table R),
      env.ifstream p.efilenm = some file →
      (raysmith_read env.log env.exp (some file) []).1 = 0 →
      raysmith_outputTable env p (raysmith_read env.log env.exp (some file) []).2 = some tab →
      0 < (env.check tab).length → (raysmith env).status = some (-1)) ∧
    (∀ (file : EnergyFile R) (tab : table R),
      env.ifstream p.efilenm = some file →
      (raysmith_read env.log env.exp (some file) []).1 = 0 →
      raysmith_outputTable env p (raysmith_read env.log env.exp (some file) []).2 = some tab →
      (env.check tab).length = 0 → (env.ifstream p.filename).isSome = true →
      p.clobber = false → (raysmith env).status = some (-2)) ∧
    (0 : ℤ) ∉ [-1, 2, 3, -2] ∧ ([-1, 2, 3, -2] : List ℤ).Nodup := by
  refine ⟨?_, ?_, ?_, ?_, ?_, by decide, by decide⟩
  · intro hopen
    simp [raysmith, hpar, hopen]
  · intro file pre l rest hopen hlines hvalid hzero
    have hrd : raysmith_read env.log env.exp (some file) []
        = (2, [] ++ (pre.map (lineBoundaries env.log env.exp)).flatten) := by
      simp only [raysmith_read, hlines]
      rw [loop_skip_valid env.log env.exp pre _ [] hvalid]
      simp [raysmith_read_loop, hzero]
    simp [raysmith, hpar, hopen, hrd]
  · intro file pre l rest hopen hlines hvalid hpos h1 h2
    have h0 : ¬ extract_size_t l.nBins ≤ 0 := by omega
    have hrd : raysmith_read env.log env.exp (some file) []
        = (3, [] ++ (pre.map (lineBoundaries env.log env.exp)).flatten) := by
      simp only [raysmith_read, hlines]
      rw [loop_skip_valid env.log env.exp pre _ [] hvalid]
      simp [raysmith_read_loop, h0, h1, h2]
    simp [raysmith, hpar, hopen, hrd]
  · intro file tab hopen hread htab hmsg
    rw [raysmith_after_table env p file tab hpar hopen hread htab, if_pos hmsg]
  · intro file tab hopen hread htab hmsg hex hcl
    rw [raysmith_after_table env p file tab hpar hopen hread htab]
    simp [hmsg, hex, hcl]

/-- A run on `testEnv` whose energy file holds the line `1 2 0 lin` returns 2. -/
theorem raysmith_failure_statuses_witness :
    (raysmith (testEnv (some ⟨[some ⟨1, 2, 0, "lin"⟩], none⟩) .absent 0 "")).status = some 2 :=
  (raysmith_failure_statuses (testEnv (some ⟨[some ⟨1, 2, 0, "lin"⟩], none⟩) .absent 0 "")
    (testPars false) (testEnv_getpar _ _ _)).2.1 ⟨[some ⟨1, 2, 0, "lin"⟩], none⟩ []
      ⟨1, 2, 0, "lin"⟩ [] (testEnv_efile _ _ _) rfl (by simp) (by decide)

/-- The table of `testEnv` for three energies has the shape of C7. -/
theorem raysmith_table_shape_witness :
    ∃ tab : table ℚ,
      raysmith_outputTable (testEnv none .absent 0 "") (testPars false) [1, 2, 3] = some tab ∧
      tab.Parameters.length = 13 ∧ tab.NumIntParams = 1 ∧ tab.NumAddParams = 12 ∧
      (tab.Spectra.length : ℤ) = 3 := by
  obtain ⟨tab, h1, h2, _, _, h5, h6, h7, _⟩ :=
    raysmith_table_shape (testEnv none .absent 0 "") (testPars false) [1, 2, 3] 2
      (by decide) rfl (by decide) (by decide)
  exact ⟨tab, h1, h2, h5, h6, h7⟩

/-- C8 as stated fails: the empty file is accepted with no boundary at all; the two
lines `1 2 1 lin` and `2 3 1 lin`, each with `0 < eMin < eMax` and one bin, are accepted
with the boundaries `1, 2, 2, 3`, which are not strictly increasing; and in the arithmetic
of a `double` the single line `1 1.0000000000000002 2 lin` is accepted with the
boundaries `1, 1, 1.0000000000000002`, the middle one being rounded down to 1. -/
theorem energy_grid_not_increasing :
    (raysmith_read Real.log Real.exp (some ⟨[], none⟩) [] = (0, []) ∧
      ¬ 2 ≤ ([] : List ℝ).length) ∧
    (raysmith_read Real.log Real.exp
        (some ⟨[some ⟨1, 2, 1, "lin"⟩, some ⟨2, 3, 1, "lin"⟩], none⟩) [] = (0, [1, 2, 2, 3]) ∧
      ¬ ([1, 2, 2, 3] : List ℝ).Pairwise (· < ·)) ∧
    (raysmith_read floatEnv.log floatEnv.exp
        (some ⟨[some ⟨1.0, 1.0000000000000002, 2, "lin"⟩], none⟩) []
        = (0, [1.0, 1.0, 1.0000000000000002]) ∧
      (1.0 : Binary64) < 1.0000000000000002 ∧
      ¬ ([1.0, 1.0, 1.0000000000000002] : List Binary64).Pairwise (· < ·)) := by
  have he : extract_size_t 1 = 1 := by decide
  refine ⟨⟨rfl, by simp⟩, ⟨?_, ?_⟩, ?_, ?_, ?_⟩
  · simp only [raysmith_read]
    rw [loop_lin Real.log Real.exp ⟨1, 2, 1, "lin"⟩ (by rw [he]; norm_num) rfl,
      loop_lin Real.log Real.exp ⟨2, 3, 1, "lin"⟩ (by rw [he]; norm_num) rfl, raysmith_read_loop]
    simp [lineBoundaries, he, List.range_succ]
  · simp
  · decide!
  · decide!
  · decide!

/-- The real part of the amended C8: over the reals, the energies of an accepted file
whose processed lines have `0 < eMin < eMax` and `0 < nBins < 2 ^ 64`, each line starting
above the end of the line before it, are strictly increasing. -/
theorem energy_grid_real (file : EnergyFile ℝ) (energies : List ℝ)
    (hacc : raysmith_read Real.log Real.exp (some file) [] = (0, energies))
    (hvalid : ∀ l ∈ processedLines file.lines,
      0 < l.eMin ∧ l.eMin < l.eMax ∧ 0 < l.nBins ∧ l.nBins < 2 ^ 64)
    (hsep : (processedLines file.lines).Chain' fun a b => a.eMax < b.eMin) :
    energies.Pairwise (· < ·) := by
  simp only [raysmith_read] at hacc
  have hpos : ∀ l ∈ processedLines file.lines, 0 < extract_size_t l.nBins := by
    intro l hl
    obtain ⟨_, _, h3, h4⟩ := hvalid l hl
    have : extract_size_t l.nBins = l.nBins.toNat := to_size_t_of_nonneg l.nBins h3.le h4
    omega
  have htypes := loop_types Real.log Real.exp file.lines [] hpos (by rw [hacc])
  rw [loop_concat Real.log Real.exp file.lines [] (fun l hl => ⟨hpos l hl, htypes l hl⟩)] at hacc
  have hE : energies
      = ((processedLines file.lines).map (lineBoundaries Real.log Real.exp)).flatten := by
    simpa using (congrArg Prod.snd hacc).symm
  have hall : ∀ l ∈ processedLines file.lines, 0 < l.eMin ∧ l.eMin < l.eMax ∧ 0 < l.nBins ∧
      l.nBins < 2 ^ 64 ∧ (l.type = "lin" ∨ l.type = "log") := fun l hl =>
    ⟨(hvalid l hl).1, (hvalid l hl).2.1, (hvalid l hl).2.2.1, (hvalid l hl).2.2.2, htypes l hl⟩
  exact hE ▸ (boundaries_increasing _ hall hsep).1

/-- C8, amended: when `raysmith_read` accepts a file (status 0) that has at least one
processed line and whose processed lines have `0 < nBins` (a `size_t`, so below
`2 ^ 64`), there are at least two energies, in whatever arithmetic `Real` has, and they
are the energies of every table `raysmith` assembles from them. Over the reals, when
moreover every processed line has `0 < eMin < eMax` and starts above the end of the line
before it, the energies are strictly increasing. -/
theorem energy_grid_increasing (log exp : R → R) (file : EnergyFile R) (energies : List R)
    (hacc : raysmith_read log exp (some file) [] = (0, energies))
    (hbins : ∀ l ∈ processedLines file.lines, 0 < l.nBins ∧ l.nBins < 2 ^ 64)
    (hne : processedLines file.lines ≠ []) :
    2 ≤ energies.length ∧
    (∀ (env : Env R) (p : Pars R) (tab : table R),
      raysmith_outputTable env p energies = some tab → tab.Energies = energies) ∧
    ∀ (fileR : EnergyFile ℝ) (energiesR : List ℝ),
      raysmith_read Real.log Real.exp (some fileR) [] = (0, energiesR) →
      (∀ l ∈ processedLines fileR.lines,
        0 < l.eMin ∧ l.eMin < l.eMax ∧ 0 < l.nBins ∧ l.nBins < 2 ^ 64) →
      ((processedLines fileR.lines).Chain' fun a b => a.eMax < b.eMin) →
      energiesR.Pairwise (· < ·) := by
  have hlen : 2 ≤ energies.length := by
    simp only [raysmith_read] at hacc
    have hpos : ∀ l ∈ processedLines file.lines, 0 < extract_size_t l.nBins := by
      intro l hl
      obtain ⟨h3, h4⟩ := hbins l hl
      have : extract_size_t l.nBins = l.nBins.toNat := to_size_t_of_nonneg l.nBins h3.le h4
      omega
    have htypes := loop_types log exp file.lines [] hpos (by rw [hacc])
    rw [loop_concat log exp file.lines [] (fun l hl => ⟨hpos l hl, htypes l hl⟩)] at hacc
    have hE : energies = ((processedLines file.lines).map (lineBoundaries log exp)).flatten := by
      simpa using (congrArg Prod.snd hacc).symm
    rw [hE]
    cases hp : processedLines file.lines with
    | nil => exact absurd hp hne
    | cons l rest =>
      have h1 := hpos l (by rw [hp]; simp)
      have h2 := lineBoundaries_length log exp l
      simp only [List.map_cons, List.flatten_cons, List.length_append]
      omega
  refine ⟨hlen, ?_, fun fileR energiesR h1 h2 h3 => energy_grid_real fileR energiesR h1 h2 h3⟩
  intro env p tab htab
  have hne2 : energies ≠ [] := by
    intro h0; rw [h0] at hlen; simp at hlen
  by_cases hn : p.ntsteps < 0
  · simp [raysmith_outputTable, hn] at htab
  · obtain ⟨tab2, h2, _, _, _, hE, _⟩ := raysmith_outputTable_eq env p energies hne2 (by omega)
    rw [h2] at htab
    cases htab
    exact hE

/-- In the arithmetic of a `double` the line `1.0 2.0 1 lin` gives two energies, and
over the reals the lines `1 2 1 lin` and `3 4 1 log` give strictly increasing energies, as
in the amended C8. -/
theorem energy_grid_increasing_witness :
    2 ≤ ([1.0, 2.0] : List Binary64).length ∧
    ([1, 2] ++ lineBoundaries Real.log Real.exp ⟨3, 4, 1, "log"⟩).Pairwise (· < ·) := by
  have he : extract_size_t 1 = 1 := by decide
  have hacc : raysmith_read Real.log Real.exp
      (some ⟨[some ⟨1, 2, 1, "lin"⟩, some ⟨3, 4, 1, "log"⟩], none⟩) []
      = (0, [1, 2] ++ lineBoundaries Real.log Real.exp ⟨3, 4, 1, "log"⟩) := by
    simp only [raysmith_read]
    rw [loop_lin Real.log Real.exp ⟨1, 2, 1, "lin"⟩ (by rw [he]; norm_num) rfl,
      loop_log Real.log Real.exp ⟨3, 4, 1, "log"⟩ (by rw [he]; norm_num) rfl, raysmith_read_loop]
    simp [lineBoundaries, he, List.range_succ]
  have h := energy_grid_increasing floatEnv.log floatEnv.exp
    ⟨[some ⟨1.0, 2.0, 1, "lin"⟩], none⟩ [1.0, 2.0] (by decide!)
    (by simp [processedLines]) (by simp [processedLines])
  exact ⟨h.1, h.2.2 ⟨[some ⟨1, 2, 1, "lin"⟩, some ⟨3, 4, 1, "log"⟩], none⟩ _ hacc
    (by norm_num [processedLines]) (by norm_num [processedLines])⟩
